import Mathlib

/-!
Verification of the BTC news/price sentiment pipeline (`src/main.py`).

The embedding below translates the pure computational core of `main.py`
into Lean:

* prices and scores are modelled as exact rationals (`ℚ`) in place of
  Python floats;
* timestamps are modelled as integer epoch seconds (`ℤ`); a UTC calendar
  date is the floor division of the epoch second by 86400, matching
  `datetime.date()` on a UTC-aware datetime;
* network effects are modelled by passing the already-retrieved data
  (feed entries, JSON close arrays) or a response oracle (for the retry
  loop) as explicit arguments;
* Python exceptions become `Except String` values; a division by zero,
  which Python raises rather than evaluating, is modelled by an explicit
  branch returning a distinguished error.
-/

/-- Positive lexicon from `main.py` (`POSITIVE_WORDS`). -/
def POSITIVE_WORDS : List String :=
  ["beat", "breakout", "bull", "bullish", "buy", "demand", "gain", "green",
   "growth", "higher", "inflow", "jump", "optimism", "outperform", "rally",
   "recover", "resilient", "rise", "risk-on", "strong", "surge", "up"]

/-- Negative lexicon from `main.py` (`NEGATIVE_WORDS`). -/
def NEGATIVE_WORDS : List String :=
  ["bear", "bearish", "crash", "decline", "drop", "fear", "headwind",
   "lower", "loss", "liquidation", "outflow", "plunge", "pressure",
   "risk-off", "sell", "selloff", "slump", "weak", "worse"]

/-- Lowercasing of a string, character by character (models `str.lower()`
on the ASCII fragment relevant to the lexicons). -/
def lowerStr (s : String) : String := String.mk (s.data.map Char.toLower)

/-- Characters matched by the token pattern of `_score_text`
(the regex class of ASCII letters and the apostrophe). -/
def isWordChar (c : Char) : Bool := c.isAlpha || c = '\''

/-- Maximal runs of word characters: models `re.findall` with the
`_score_text` token pattern.  `cur` is the reversed run in progress. -/
def tokensAux (cur : List Char) : List Char → List String
  | [] => if cur.isEmpty then [] else [String.mk cur.reverse]
  | c :: rest =>
      if isWordChar c then tokensAux (c :: cur) rest
      else if cur.isEmpty then tokensAux [] rest
      else String.mk cur.reverse :: tokensAux [] rest

/-- Token list of a text after lowercasing, as in `_score_text`. -/
def tokensOf (text : String) : List String := tokensAux [] (lowerStr text).data

/-- Number of tokens of `text` that are in the positive lexicon. -/
def positiveCount (text : String) : ℕ :=
  (tokensOf text).countP (fun t => decide (t ∈ POSITIVE_WORDS))

/-- Number of tokens of `text` that are in the negative lexicon. -/
def negativeCount (text : String) : ℕ :=
  (tokensOf text).countP (fun t => decide (t ∈ NEGATIVE_WORDS))

/-- Lexicon score of a text (`_score_text` in `main.py`): 0 on no tokens,
0 on no hits, otherwise `(positives - negatives) / max 1 (positives + negatives)`. -/
def score_text (text : String) : ℚ :=
  if (tokensOf text).isEmpty then 0
  else if positiveCount text = 0 ∧ negativeCount text = 0 then 0
  else ((positiveCount text : ℚ) - (negativeCount text : ℚ)) /
        ((max 1 (positiveCount text + negativeCount text) : ℕ) : ℚ)

/-- Whitespace characters of the `\s`-style class used by `_clean_text`
(ASCII fragment). -/
def isSpaceChar (c : Char) : Bool :=
  c = ' ' || c = '\t' || c = '\n' || c = '\r' || c = '\x0b' || c = '\x0c'

/-- Maximal runs of non-whitespace characters (the words of a text). -/
def wordsAux (cur : List Char) : List Char → List String
  | [] => if cur.isEmpty then [] else [String.mk cur.reverse]
  | c :: rest =>
      if isSpaceChar c then
        if cur.isEmpty then wordsAux [] rest
        else String.mk cur.reverse :: wordsAux [] rest
      else wordsAux (c :: cur) rest

/-- Joins words with single spaces. -/
def joinWithSpace : List String → String
  | [] => ""
  | [w] => w
  | w :: rest => w ++ " " ++ joinWithSpace rest

/-- Whitespace normalisation of `_clean_text`: collapse every whitespace
run to a single space and strip both ends. -/
def clean_text (s : String) : String := joinWithSpace (wordsAux [] s.data)

/-- Scored news item (`NewsItem` dataclass in `main.py`).  `published` is
an epoch second (UTC). -/
structure NewsItem where
  title : String
  link : String
  published : Int
  summary : String
  score : ℚ
deriving DecidableEq

/-- Price snapshot (`FuturesSnapshot` dataclass in `main.py`). -/
structure FuturesSnapshot where
  last_price : ℚ
  last_close_time : Int
  yesterday_close : ℚ
  yesterday_close_time : Int
  pct_change_since_close : ℚ
  avg_abs_daily_return : ℚ
deriving DecidableEq

/-- One raw feed entry, as delivered by the feed library to `fetch_news`:
the two optional parsed timestamps and the raw text fields. -/
structure FeedEntry where
  published_parsed : Option Int
  updated_parsed : Option Int
  title : String
  link : String
  summary : String
deriving DecidableEq

/-- Publish time of an entry: `published_parsed or updated_parsed`
fed through `_to_datetime` (`None` stays `None`). -/
def entryPublished (e : FeedEntry) : Option Int :=
  e.published_parsed.orElse (fun _ => e.updated_parsed)

/-- Deduplication key of `fetch_news`: `(title.lower(), link)`. -/
def dedupeKey (title link : String) : String × String := (lowerStr title, link)

/-- The news item `fetch_news` builds from a surviving entry. -/
def mkNewsItem (e : FeedEntry) : NewsItem :=
  { title := clean_text e.title
    link := e.link
    published := (entryPublished e).getD 0
    summary := clean_text e.summary
    score := score_text (clean_text e.title ++ " " ++ clean_text e.summary) }

/-- One iteration of the entry loop of `fetch_news`.  The state is the
`seen` key set (as a list) and the accumulated items in append order. -/
def fetchNewsStep (st : List (String × String) × List NewsItem) (e : FeedEntry) :
    List (String × String) × List NewsItem :=
  match entryPublished e with
  | none => st
  | some _ =>
      let title := clean_text e.title
      let key := dedupeKey title e.link
      if title = "" ∨ key ∈ st.1 then st
      else (key :: st.1, st.2 ++ [mkNewsItem e])

/-- News ingestion (`fetch_news` in `main.py`) on an already-retrieved
entry list (the concatenation of all sources' entries in source order):
drop entries without a publish time or with an empty cleaned title,
deduplicate on `(title.lower(), link)` first-wins, then sort by publish
time descending (stably, as Python's `list.sort` does). -/
def fetch_news (entries : List FeedEntry) : List NewsItem :=
  let items := (List.foldl fetchNewsStep ([], []) entries).2
  List.insertionSort (fun a b => b.published ≤ a.published) items

/-- UTC calendar date of an epoch second, as a day number. -/
def dateOf (t : Int) : Int := Int.fdiv t 86400

/-- Recency filter (`filter_recent` in `main.py`): same-day items win,
otherwise empty under `today_only`, otherwise the trailing 24-hour window. -/
def filter_recent (items : List NewsItem) (now : Int) (today_only : Bool) :
    List NewsItem × String :=
  let today_items := items.filter (fun it => decide (dateOf it.published = dateOf now))
  if today_items ≠ [] then (today_items, "today")
  else if today_only then ([], "none")
  else (items.filter (fun it => decide (now - 86400 ≤ it.published)), "last_24h")

/-- Outcome of the retry loop of `fetch_json`: the returned body or the
final error (with its optional underlying cause), the number of request
attempts actually made, and the sequence of back-off sleeps in order. -/
structure FetchOutcome (α : Type) where
  result : Except (Option String) α
  attempts_made : ℕ
  sleeps : List ℚ

/-- Body of the retry loop of `fetch_json` in `fetch_price_snapshot`.
`net i` is the outcome of request attempt number `i`; `remaining` is the
number of attempts still allowed, `attempt` the 1-based number of the next
attempt, `lastExc` the cause recorded so far.  A failed attempt that is
not the last sleeps `1.5 * attempt`; exhaustion raises the
`RuntimeError` wrapping the last cause. -/
def fetchJsonAux {α : Type} (net : ℕ → Except String α) :
    (remaining : ℕ) → (attempt : ℕ) → (lastExc : Option String) → FetchOutcome α
  | 0, _, lastExc => ⟨Except.error lastExc, 0, []⟩
  | n + 1, attempt, _ =>
      match net attempt with
      | Except.ok v => ⟨Except.ok v, 1, []⟩
      | Except.error e =>
          let rest := fetchJsonAux net n (attempt + 1) (some e)
          if n = 0 then ⟨rest.result, rest.attempts_made + 1, rest.sleeps⟩
          else ⟨rest.result, rest.attempts_made + 1,
                (3 / 2 : ℚ) * (attempt : ℚ) :: rest.sleeps⟩

/-- The retry loop of `fetch_json`: `for attempt in range(1, retries + 1)`.
A non-positive `retries` yields an empty loop. -/
def fetch_json {α : Type} (net : ℕ → Except String α) (retries : Int) :
    FetchOutcome α :=
  fetchJsonAux net retries.toNat 1 none

/-- Pairing of timestamps with non-null closes (`cleaned` in
`fetch_price_snapshot`): `zip` truncates to the shorter array, `None`
closes are dropped. -/
def cleanedOf (timestamps : List Int) (closes : List (Option ℚ)) :
    List (Int × ℚ) :=
  (timestamps.zip closes).filterMap (fun p => p.2.map (fun c => (p.1, c)))

/-- Ascending stable sort of the cleaned pairs by timestamp
(`cleaned.sort(key=...)`). -/
def sortByTs (l : List (Int × ℚ)) : List (Int × ℚ) :=
  List.insertionSort (fun a b => a.1 ≤ b.1) l

/-- Absolute returns of adjacent close pairs with strictly positive
previous close (the `returns` loop of `fetch_price_snapshot`). -/
def returnsOf : List (Int × ℚ) → List ℚ
  | [] => []
  | [_] => []
  | (_, a) :: (t, b) :: rest =>
      (if 0 < a then [|(b - a) / a|] else []) ++ returnsOf ((t, b) :: rest)

/-- Average absolute daily return: mean of `returnsOf`, 0 when empty. -/
def avgAbsDailyReturn (l : List (Int × ℚ)) : ℚ :=
  let returns := returnsOf l
  if returns.isEmpty then 0 else returns.sum / (returns.length : ℚ)

/-- Validation and snapshot construction of `fetch_price_snapshot`
(lines 194-227 of `main.py`), starting from the already-parsed
`timestamp` and `close` arrays of the chart response.  The last two
pairs of the ascending-sorted cleaned series become last/yesterday.
Python evaluates `(last - yesterday) / yesterday` unguarded; the
`yesterday = 0` branch records the `ZeroDivisionError` Python would
raise there. -/
def fetch_price_snapshot (timestamps : List Int) (closes : List (Option ℚ)) :
    Except String FuturesSnapshot :=
  if closes.isEmpty ∨ closes.length < 2 then
    Except.error "Not enough close data from Yahoo Finance."
  else
    let cleaned := cleanedOf timestamps closes
    if cleaned.length < 2 then
      Except.error "Not enough valid close data from Yahoo Finance."
    else
      let sorted := sortByTs cleaned
      let lastPair := sorted.getD (sorted.length - 1) (0, 0)
      let yesterdayPair := sorted.getD (sorted.length - 2) (0, 0)
      if yesterdayPair.2 = 0 then
        Except.error "ZeroDivisionError: float division by zero"
      else
        Except.ok
          { last_price := lastPair.2
            last_close_time := lastPair.1
            yesterday_close := yesterdayPair.2
            yesterday_close_time := yesterdayPair.1
            pct_change_since_close :=
              (lastPair.2 - yesterdayPair.2) / yesterdayPair.2 * 100
            avg_abs_daily_return := avgAbsDailyReturn sorted }

/-- Signal combination (`combine_signal` in `main.py`). -/
def combine_signal (news_items : List NewsItem) (futures : FuturesSnapshot) : ℚ :=
  let news_score :=
    if news_items.isEmpty then 0
    else (news_items.map NewsItem.score).sum / (news_items.length : ℚ)
  let price_score := max (-1) (min 1 (futures.pct_change_since_close / 5))
  0.7 * news_score + 0.3 * price_score

/-- Expected move projection (`expected_move_pct` in `main.py`). -/
def expected_move_pct (combined_score : ℚ) (futures : FuturesSnapshot) : ℚ :=
  let scaled := max (-1) (min 1 combined_score)
  scaled * futures.avg_abs_daily_return * 100

/-- Expected price target, as computed in `format_report` (lines 269-270
of `main.py`) and in the dashboard's `load_data`. -/
def expected_price (combined_score : ℚ) (futures : FuturesSnapshot) : ℚ :=
  futures.yesterday_close * (1 + expected_move_pct combined_score futures / 100)

/-- Clamp of `x` to `[lo, hi]`, as the spec writes `clamp(v, lo, hi)`. -/
def clamp (x lo hi : ℚ) : ℚ := max lo (min hi x)

/-- Spec-side news score: mean of the item scores, or 0 if the sequence
is empty (spec, SignalCombiner). -/
def newsScoreSpec (news_items : List NewsItem) : ℚ :=
  if news_items = [] then 0
  else (news_items.map NewsItem.score).sum / (news_items.length : ℚ)

/-- Spec-side model of the RecencyFilter three-tier policy, written from
the spec's words: tier 1, if any item's UTC date equals the reference
date, exactly the same-day subset with label "today"; tier 2, otherwise
under `today_only`, empty with label "none"; tier 3, otherwise the items
of the trailing 24-hour window with label "last_24h". -/
def recency_policy (items : List NewsItem) (now : Int) (today_only : Bool) :
    List NewsItem × String :=
  if items.any (fun it => decide (dateOf it.published = dateOf now)) then
    (items.filter (fun it => decide (dateOf it.published = dateOf now)), "today")
  else if today_only then ([], "none")
  else (items.filter (fun it => decide (now - 86400 ≤ it.published)), "last_24h")

/-- Adjacent pairs of the cleaned sorted close series whose previous
close is strictly positive (the pairs the spec's mean ranges over). -/
def validPairs (l : List (Int × ℚ)) : List ((Int × ℚ) × (Int × ℚ)) :=
  (l.zip l.tail).filter (fun p => decide (0 < p.1.2))

/-- An entry survives ingestion's per-entry checks when it has a parseable
publish time and a non-empty cleaned title (dedup acts among these). -/
def survives (e : FeedEntry) : Bool :=
  (entryPublished e).isSome && decide (clean_text e.title ≠ "")

/-- Deduplication key of the surviving entry. -/
def entryKey (e : FeedEntry) : String × String :=
  dedupeKey (clean_text e.title) e.link

/-- Deduplication key of a built news item. -/
def itemKey (it : NewsItem) : String × String := dedupeKey it.title it.link

/-! ## Claim C2: the strict three-tier recency policy -/

/-- C2: for every item sequence, reference time and `today_only` flag,
`filter_recent` obeys the strict three-tier precedence: if at least one
item's UTC date equals the reference date it returns exactly that
subsequence with label "today" (regardless of the 24-hour window);
otherwise under `today_only` the empty sequence with label "none";
otherwise exactly the items with publish time at least
`reference_time - 24h`, with label "last_24h". -/
theorem filter_recent_three_tier (items : List NewsItem) (now : Int)
    (today_only : Bool) :
    filter_recent items now today_only = recency_policy items now today_only := by
  simp only [filter_recent, recency_policy]
  by_cases h : items.any (fun it => decide (dateOf it.published = dateOf now)) = true
  · obtain ⟨x, hx, hpx⟩ := List.any_eq_true.mp h
    have hne : items.filter (fun it => decide (dateOf it.published = dateOf now)) ≠ [] := by
      intro hnil
      exact List.filter_eq_nil_iff.mp hnil x hx hpx
    rw [if_pos hne, if_pos h]
  · have hnil : items.filter (fun it => decide (dateOf it.published = dateOf now)) = [] := by
      refine List.filter_eq_nil_iff.mpr ?_
      intro a ha hpa
      exact h (List.any_eq_true.mpr ⟨a, ha, hpa⟩)
    rw [if_neg (not_not_intro hnil), if_neg h]

/-! ## Claim C6: the signal-combination formula -/

/-- C6: `combine_signal` returns `0.7 * news_score + 0.3 * clamp(pct/5, -1, 1)`
where `news_score` is the mean of the item scores (0 on the empty list);
on the empty list the result is exactly the price component. -/
theorem combine_signal_formula (news_items : List NewsItem)
    (futures : FuturesSnapshot) :
    combine_signal news_items futures =
      0.7 * newsScoreSpec news_items +
        0.3 * clamp (futures.pct_change_since_close / 5) (-1) 1 ∧
    (news_items = [] →
      combine_signal news_items futures =
        0.3 * clamp (futures.pct_change_since_close / 5) (-1) 1) := by
  have hmain : combine_signal news_items futures =
      0.7 * newsScoreSpec news_items +
        0.3 * clamp (futures.pct_change_since_close / 5) (-1) 1 := by
    by_cases h : news_items = []
    · subst h
      simp [combine_signal, newsScoreSpec, clamp]
    · simp [combine_signal, newsScoreSpec, clamp, h, List.isEmpty_iff]
  refine ⟨hmain, ?_⟩
  intro h
  rw [hmain, h]
  simp [newsScoreSpec]

/-- Witness for C6 at the empty news list and a concrete snapshot. -/
theorem combine_signal_formula_witness :
    combine_signal [] (FuturesSnapshot.mk 104 6 107 5 (-300 / 107) (3 / 100)) =
      0.3 * clamp ((FuturesSnapshot.mk 104 6 107 5 (-300 / 107)
        (3 / 100)).pct_change_since_close / 5) (-1) 1 :=
  (combine_signal_formula []
    (FuturesSnapshot.mk 104 6 107 5 (-300 / 107) (3 / 100))).2 rfl

/-! ## Claim C7: the expected-move round trip -/

/-- C7: for every combined score and snapshot with nonzero prior close,
`expected_move_pct` is the clamped score times the average absolute
daily return times 100, `expected_price` is
`yesterday_close * (1 + expected_move_pct / 100)`, and the round trip
`expected_price / yesterday_close - 1 = expected_move_pct / 100` holds. -/
theorem expected_move_round_trip (combined_score : ℚ)
    (futures : FuturesSnapshot) (h : futures.yesterday_close ≠ 0) :
    expected_move_pct combined_score futures =
      clamp combined_score (-1) 1 * futures.avg_abs_daily_return * 100 ∧
    expected_price combined_score futures =
      futures.yesterday_close *
        (1 + expected_move_pct combined_score futures / 100) ∧
    expected_price combined_score futures / futures.yesterday_close - 1 =
      expected_move_pct combined_score futures / 100 := by
  refine ⟨rfl, rfl, ?_⟩
  unfold expected_price
  field_simp
  ring

/-- Witness for C7 at a concrete score and snapshot. -/
theorem expected_move_round_trip_witness :
    expected_move_pct (1 / 4) (FuturesSnapshot.mk 1 0 2 0 0 (1 / 2)) =
      clamp (1 / 4) (-1) 1 *
        (FuturesSnapshot.mk 1 0 2 0 0 (1 / 2)).avg_abs_daily_return * 100 ∧
    expected_price (1 / 4) (FuturesSnapshot.mk 1 0 2 0 0 (1 / 2)) =
      (FuturesSnapshot.mk 1 0 2 0 0 (1 / 2)).yesterday_close *
        (1 + expected_move_pct (1 / 4) (FuturesSnapshot.mk 1 0 2 0 0 (1 / 2)) / 100) ∧
    expected_price (1 / 4) (FuturesSnapshot.mk 1 0 2 0 0 (1 / 2)) /
        (FuturesSnapshot.mk 1 0 2 0 0 (1 / 2)).yesterday_close - 1 =
      expected_move_pct (1 / 4) (FuturesSnapshot.mk 1 0 2 0 0 (1 / 2)) / 100 :=
  expected_move_round_trip (1 / 4) (FuturesSnapshot.mk 1 0 2 0 0 (1 / 2))
    (by norm_num)

/-! ## Claim C9: non-positive retry budget -/

/-- C9: invoked with `retries ≤ 0`, the retry loop of `fetch_json` makes
zero request attempts, sleeps never, and fails immediately with the
retrieval error carrying no underlying cause. -/
theorem fetch_json_nonpositive_retries {α : Type} (net : ℕ → Except String α)
    (retries : Int) (h : retries ≤ 0) :
    fetch_json net retries = ⟨Except.error none, 0, []⟩ := by
  unfold fetch_json
  rw [Int.toNat_of_nonpos h]
  rfl

/-- Witness for C9 at `retries = -2` (the oracle would even succeed,
but is never consulted). -/
theorem fetch_json_nonpositive_retries_witness :
    fetch_json (fun _ => Except.ok (0 : ℕ)) (-2) = ⟨Except.error none, 0, []⟩ :=
  fetch_json_nonpositive_retries (fun _ => Except.ok (0 : ℕ)) (-2) (by decide)

/-! ## Claim C10: the last-24h fallback has no upper bound -/

/-- C10: when no item shares the reference date and `today_only` is
false, `filter_recent` returns exactly the items with publish time at
least `now - 24h`; the window has no upper bound, so items later than
the reference time (future-dated, on a different calendar date) are
included. -/
theorem filter_recent_last24h_no_upper_bound (items : List NewsItem) (now : Int)
    (h : items.any (fun it => decide (dateOf it.published = dateOf now)) = false) :
    filter_recent items now false =
      (items.filter (fun it => decide (now - 86400 ≤ it.published)), "last_24h") ∧
    (∀ it ∈ items, now - 86400 ≤ it.published →
      it ∈ (filter_recent items now false).1) ∧
    (∀ it ∈ items, now < it.published →
      it ∈ (filter_recent items now false).1) := by
  have hnil : items.filter (fun it => decide (dateOf it.published = dateOf now)) = [] := by
    refine List.filter_eq_nil_iff.mpr ?_
    intro a ha hpa
    have hany : items.any (fun it => decide (dateOf it.published = dateOf now)) = true :=
      List.any_eq_true.mpr ⟨a, ha, hpa⟩
    rw [h] at hany
    exact Bool.false_ne_true hany
  have hmain : filter_recent items now false =
      (items.filter (fun it => decide (now - 86400 ≤ it.published)), "last_24h") := by
    simp only [filter_recent]
    rw [if_neg (not_not_intro hnil)]
    rfl
  refine ⟨hmain, ?_, ?_⟩
  · intro it hit hle
    rw [hmain]
    exact List.mem_filter.mpr ⟨hit, by simpa using hle⟩
  · intro it hit hlt
    rw [hmain]
    refine List.mem_filter.mpr ⟨hit, ?_⟩
    have : now - 86400 ≤ it.published := by omega
    simpa using this

/-- Witness for C10: a single future-dated item (published 90000, one
calendar day after a reference time of 0) is returned by the fallback. -/
theorem filter_recent_last24h_no_upper_bound_witness :
    filter_recent [NewsItem.mk "t" "" 90000 "" 0] 0 false =
      ([NewsItem.mk "t" "" 90000 "" 0], "last_24h") ∧
    NewsItem.mk "t" "" 90000 "" 0 ∈
      (filter_recent [NewsItem.mk "t" "" 90000 "" 0] 0 false).1 := by
  have h := filter_recent_last24h_no_upper_bound
    [NewsItem.mk "t" "" 90000 "" 0] 0 (by decide)
  exact ⟨by rw [h.1]; rfl, h.2.2 (NewsItem.mk "t" "" 90000 "" 0) (by decide) (by decide)⟩

/-! ## Claim C5: lexicon score -/

/-- Closed form of `score_text`: 0 when there are no lexicon hits,
otherwise the signed hit ratio (the `max 1` guard is inert there). -/
theorem score_text_eq (text : String) :
    score_text text =
      if positiveCount text = 0 ∧ negativeCount text = 0 then 0
      else ((positiveCount text : ℚ) - (negativeCount text : ℚ)) /
            ((positiveCount text : ℚ) + (negativeCount text : ℚ)) := by
  unfold score_text
  by_cases hz : positiveCount text = 0 ∧ negativeCount text = 0
  · by_cases hemp : (tokensOf text).isEmpty = true
    · rw [if_pos hemp, if_pos hz]
    · rw [if_neg hemp, if_pos hz, if_pos hz]
  · have hts : ¬(tokensOf text).isEmpty = true := by
      intro hemp
      have hnil : tokensOf text = [] := List.isEmpty_iff.mp hemp
      refine hz ⟨?_, ?_⟩
      · unfold positiveCount
        rw [hnil]
        rfl
      · unfold negativeCount
        rw [hnil]
        rfl
    rw [if_neg hts, if_neg hz, if_neg hz]
    have h1 : 1 ≤ positiveCount text + negativeCount text := by omega
    rw [Nat.max_eq_right h1]
    push_cast
    rfl

/-- C5: the lexicon score is in `[-1, 1]`; it is 0 exactly on zero hits,
1 on only-positive hits, -1 on only-negative hits, and otherwise the
ratio `(positives - negatives) / (positives + negatives)`. -/
theorem score_text_lexicon_props (text : String) :
    (-1 ≤ score_text text ∧ score_text text ≤ 1) ∧
    (positiveCount text = 0 ∧ negativeCount text = 0 → score_text text = 0) ∧
    (1 ≤ positiveCount text ∧ negativeCount text = 0 → score_text text = 1) ∧
    (1 ≤ negativeCount text ∧ positiveCount text = 0 → score_text text = -1) ∧
    (1 ≤ positiveCount text + negativeCount text →
      score_text text =
        ((positiveCount text : ℚ) - (negativeCount text : ℚ)) /
          ((positiveCount text : ℚ) + (negativeCount text : ℚ))) := by
  have he := score_text_eq text
  have hp : (0 : ℚ) ≤ (positiveCount text : ℚ) := Nat.cast_nonneg _
  have hn : (0 : ℚ) ≤ (negativeCount text : ℚ) := Nat.cast_nonneg _
  refine ⟨?_, ?_, ?_, ?_, ?_⟩
  · by_cases hz : positiveCount text = 0 ∧ negativeCount text = 0
    · rw [he, if_pos hz]
      norm_num
    · rw [he, if_neg hz]
      have h1 : 1 ≤ positiveCount text + negativeCount text := by omega
      have hd : (0 : ℚ) < (positiveCount text : ℚ) + (negativeCount text : ℚ) := by
        have : (0 : ℚ) < ((positiveCount text + negativeCount text : ℕ) : ℚ) := by
          exact_mod_cast Nat.lt_of_lt_of_le Nat.zero_lt_one h1
        push_cast at this
        exact this
      constructor
      · rw [le_div_iff₀ hd]
        linarith
      · rw [div_le_one hd]
        linarith
  · intro hz
    rw [he, if_pos hz]
  · rintro ⟨h1, h0⟩
    have hz : ¬(positiveCount text = 0 ∧ negativeCount text = 0) := by omega
    have hp1 : (0 : ℚ) < (positiveCount text : ℚ) := by exact_mod_cast h1
    rw [he, if_neg hz, h0]
    simp only [Nat.cast_zero, sub_zero, add_zero]
    exact div_self hp1.ne'
  · rintro ⟨h1, h0⟩
    have hz : ¬(positiveCount text = 0 ∧ negativeCount text = 0) := by omega
    have hn1 : (0 : ℚ) < (negativeCount text : ℚ) := by exact_mod_cast h1
    rw [he, if_neg hz, h0]
    simp only [Nat.cast_zero, zero_sub, zero_add]
    rw [neg_div, div_self hn1.ne']
  · intro h1
    have hz : ¬(positiveCount text = 0 ∧ negativeCount text = 0) := by omega
    rw [he, if_neg hz]

/-- Witness for C5 on three concrete texts: only-positive hits score 1,
only-negative hits score -1, no hits score 0. -/
theorem score_text_lexicon_props_witness :
    score_text "Bitcoin set to surge higher" = 1 ∧
    score_text "crash" = -1 ∧
    score_text "hello world" = 0 := by
  refine ⟨?_, ?_, ?_⟩
  · exact (score_text_lexicon_props "Bitcoin set to surge higher").2.2.1
      ⟨by decide, by decide⟩
  · exact (score_text_lexicon_props "crash").2.2.2.1 ⟨by decide, by decide⟩
  · exact (score_text_lexicon_props "hello world").2.1 ⟨by decide, by decide⟩

/-! ## Claim C3: retry exhaustion -/

/-- Base equation of the retry loop body: no attempts remaining raises
the retrieval error wrapping the recorded cause. -/
theorem fetchJsonAux_zero {α : Type} (net : ℕ → Except String α) (attempt : ℕ)
    (lastExc : Option String) :
    fetchJsonAux net 0 attempt lastExc = ⟨Except.error lastExc, 0, []⟩ := rfl

/-- Step equation of the retry loop body on a failing attempt: recurse
with the cause recorded, sleeping `1.5 * attempt` unless this was the
final attempt. -/
theorem fetchJsonAux_succ_error {α : Type} (net : ℕ → Except String α)
    (n attempt : ℕ) (lastExc : Option String) (e : String)
    (h : net attempt = Except.error e) :
    fetchJsonAux net (n + 1) attempt lastExc =
      if n = 0 then
        ⟨(fetchJsonAux net n (attempt + 1) (some e)).result,
         (fetchJsonAux net n (attempt + 1) (some e)).attempts_made + 1,
         (fetchJsonAux net n (attempt + 1) (some e)).sleeps⟩
      else
        ⟨(fetchJsonAux net n (attempt + 1) (some e)).result,
         (fetchJsonAux net n (attempt + 1) (some e)).attempts_made + 1,
         (3 / 2 : ℚ) * (attempt : ℚ) ::
           (fetchJsonAux net n (attempt + 1) (some e)).sleeps⟩ := by
  simp only [fetchJsonAux, h]

/-- All-failures behaviour of the retry loop body: with `n ≥ 1` attempts
remaining and the next attempt numbered `attempt`, it makes exactly `n`
request attempts, sleeps `1.5 * a` after each non-final attempt `a`, and
fails wrapping the error of the last attempt. -/
theorem fetchJsonAux_all_fail {α : Type} (net : ℕ → Except String α)
    (err : ℕ → String) (hnet : ∀ i, net i = Except.error (err i)) :
    ∀ (n : ℕ), 1 ≤ n → ∀ (attempt : ℕ) (lastExc : Option String),
      fetchJsonAux net n attempt lastExc =
        ⟨Except.error (some (err (attempt + n - 1))), n,
          (List.range' attempt (n - 1)).map (fun a : ℕ => (3 / 2 : ℚ) * (a : ℚ))⟩ := by
  intro n
  induction n with
  | zero =>
      intro h
      exact absurd h (by omega)
  | succ m ih =>
      intro _ attempt lastExc
      rw [fetchJsonAux_succ_error net m attempt lastExc (err attempt) (hnet attempt)]
      cases m with
      | zero =>
          rw [if_pos rfl, fetchJsonAux_zero]
          simp [List.range']
      | succ k =>
          rw [if_neg (Nat.succ_ne_zero k)]
          rw [ih (by omega) (attempt + 1) (some (err attempt))]
          have h1 : attempt + 1 + (k + 1) - 1 = attempt + (k + 1 + 1) - 1 := by omega
          have h2 : k + 1 + 1 - 1 = k + 1 := by omega
          have h3 : k + 1 - 1 = k := by omega
          rw [h1, h2, h3, List.range'_succ, List.map_cons]

/-- C3: with `retries ≥ 1` and every attempt failing with a transport
error, the retry loop of `fetch_json` makes exactly `retries` attempts,
sleeps `1.5 * attempt_number` after each attempt except the final one
(so for attempts `1 .. retries - 1`), and fails with the retrieval error
wrapping the error of the last attempt. -/
theorem fetch_json_retry_exhaustion {α : Type} (net : ℕ → Except String α)
    (err : ℕ → String) (retries : Int) (h1 : 1 ≤ retries)
    (hnet : ∀ i, net i = Except.error (err i)) :
    fetch_json net retries =
      ⟨Except.error (some (err retries.toNat)), retries.toNat,
        (List.range' 1 (retries.toNat - 1)).map (fun a : ℕ => (3 / 2 : ℚ) * (a : ℚ))⟩ := by
  unfold fetch_json
  rw [fetchJsonAux_all_fail net err hnet retries.toNat (by omega) 1 none]
  have h2 : 1 + retries.toNat - 1 = retries.toNat := by omega
  rw [h2]

/-- Witness for C3: three consecutive transport failures with
`retries = 3` yield exactly 3 attempts, sleeps of 1.5 and 3 time units,
and the retrieval error wrapping the third failure. -/
theorem fetch_json_retry_exhaustion_witness :
    fetch_json (fun _ => (Except.error "timeout" : Except String ℕ)) 3 =
      ⟨Except.error (some "timeout"), 3, [3 / 2, 3]⟩ := by
  have h := fetch_json_retry_exhaustion
    (fun _ => (Except.error "timeout" : Except String ℕ))
    (fun _ => "timeout") 3 (by decide) (fun _ => rfl)
  have ht : (3 : Int).toNat = 3 := by decide
  rw [ht] at h
  rw [h]
  norm_num [List.range']

/-! ## Claim C1: the claimed positivity guard on the prior close -/

/-- C1 counterexample: the cleaned series `[(1, -5), (2, 10)]`, whose
prior close is negative, passes every check of `fetch_price_snapshot`
and produces a normal snapshot built from the non-positive prior close
(`pct_change_since_close = (10 - (-5)) / (-5) * 100 = -300`) instead of
failing with a fetch error, contradicting the claimed invariant. -/
theorem fetch_price_snapshot_accepts_negative_prior_close :
    fetch_price_snapshot [1, 2] [some (-5), some 10] =
      Except.ok (FuturesSnapshot.mk 10 2 (-5) 1 (-300) 0) := by
  norm_num [fetch_price_snapshot, cleanedOf, sortByTs, avgAbsDailyReturn,
    returnsOf, List.insertionSort, List.orderedInsert, List.filterMap_cons]

/-- C1 amended: `fetch_price_snapshot` applies no positivity guard to
the prior close: every snapshot it returns satisfies the unguarded
`pct_change_since_close` formula, with the prior close merely nonzero
(its sign is never checked). -/
theorem fetch_price_snapshot_no_positivity_guard (timestamps : List Int)
    (closes : List (Option ℚ)) (s : FuturesSnapshot)
    (h : fetch_price_snapshot timestamps closes = Except.ok s) :
    s.pct_change_since_close =
      (s.last_price - s.yesterday_close) / s.yesterday_close * 100 ∧
    s.yesterday_close ≠ 0 := by
  simp only [fetch_price_snapshot] at h
  split_ifs at h with hc1 hc2 hc3
  cases h
  exact ⟨rfl, hc3⟩

/-- Witness for the amended C1 at the counterexample input: the returned
snapshot has prior close -5 and the unguarded formula holds for it. -/
theorem fetch_price_snapshot_no_positivity_guard_witness :
    (FuturesSnapshot.mk 10 2 (-5) 1 (-300) 0).pct_change_since_close =
      ((FuturesSnapshot.mk 10 2 (-5) 1 (-300) 0).last_price -
          (FuturesSnapshot.mk 10 2 (-5) 1 (-300) 0).yesterday_close) /
        (FuturesSnapshot.mk 10 2 (-5) 1 (-300) 0).yesterday_close * 100 ∧
    (FuturesSnapshot.mk 10 2 (-5) 1 (-300) 0).yesterday_close ≠ 0 :=
  fetch_price_snapshot_no_positivity_guard [1, 2] [some (-5), some 10]
    (FuturesSnapshot.mk 10 2 (-5) 1 (-300) 0)
    (by norm_num [fetch_price_snapshot, cleanedOf, sortByTs, avgAbsDailyReturn,
      returnsOf, List.insertionSort, List.orderedInsert, List.filterMap_cons])

/-! ## Claim C4: the average absolute daily return -/

/-- The `returns` list of `fetch_price_snapshot` is exactly the per-pair
relative change `|close_i / close_im1 - 1|` mapped over the adjacent
pairs with strictly positive previous close. -/
theorem returnsOf_eq_map_validPairs : ∀ l : List (Int × ℚ),
    returnsOf l = (validPairs l).map (fun p => |p.2.2 / p.1.2 - 1|) := by
  intro l
  induction l with
  | nil => rfl
  | cons x xs ih =>
      cases xs with
      | nil => rfl
      | cons y ys =>
          obtain ⟨tx, a⟩ := x
          obtain ⟨ty, b⟩ := y
          by_cases ha : 0 < a
          · have hd : (b - a) / a = b / a - 1 := by
              rw [sub_div, div_self (ne_of_gt ha)]
            simp only [returnsOf, validPairs, List.tail_cons, List.zip_cons_cons,
              List.filter_cons] at ih ⊢
            rw [if_pos ha]
            rw [show (decide ((0 : ℚ) < a)) = true from decide_eq_true ha]
            simp only [if_true, List.map_cons]
            rw [hd]
            simp only [List.singleton_append]
            rw [ih]
          · simp only [returnsOf, validPairs, List.tail_cons, List.zip_cons_cons,
              List.filter_cons] at ih ⊢
            rw [if_neg ha]
            rw [show (decide ((0 : ℚ) < a)) = false from decide_eq_false ha]
            simp only [Bool.false_eq_true, if_false, List.nil_append]
            rw [ih]

/-- Membership of the final (anchor) adjacent pair in the zip of a list
with its tail. -/
theorem mem_zip_tail_append {α : Type} : ∀ (pre : List α) (x y : α),
    (x, y) ∈ (pre ++ [x, y]).zip (pre ++ [x, y]).tail := by
  intro pre
  induction pre with
  | nil =>
      intro x y
      simp
  | cons c pre ih =>
      intro x y
      cases hm : pre ++ [x, y] with
      | nil => exact absurd hm (by simp)
      | cons d m' =>
          have ihm := ih x y
          rw [hm] at ihm
          show (x, y) ∈ (c :: (pre ++ [x, y])).zip (pre ++ [x, y])
          rw [hm, List.zip_cons_cons]
          rw [List.tail_cons] at ihm
          exact List.mem_cons_of_mem _ ihm

/-- C4 counterexample: for the cleaned series `[(1, 100), (2, 100)]` the
average absolute daily return is 0 while a valid adjacent pair (with
strictly positive previous close) does exist, so the value is not 0
"exactly when" no such pair exists. -/
theorem avg_abs_daily_return_zero_with_valid_pair :
    avgAbsDailyReturn [(1, 100), (2, 100)] = 0 ∧
    validPairs [(1, 100), (2, 100)] = [((1, 100), (2, 100))] := by
  constructor
  · norm_num [avgAbsDailyReturn, returnsOf]
  · norm_num [validPairs]

/-- C4 amended: for every close series of length at least 2,
`avgAbsDailyReturn` equals the arithmetic mean of `|close_i/close_im1 - 1|`
over the adjacent pairs with strictly positive previous close, and is 0
whenever no such pair exists (though it can also be 0 with valid pairs,
as on a constant series); the final (anchor) pair is included in the
mean whenever its previous close is positive. -/
theorem avg_abs_daily_return_mean_formula (l : List (Int × ℚ))
    (h2 : 2 ≤ l.length) :
    avgAbsDailyReturn l =
      (if validPairs l = [] then 0
       else ((validPairs l).map (fun p => |p.2.2 / p.1.2 - 1|)).sum /
              ((validPairs l).length : ℚ)) ∧
    (∀ (pre : List (Int × ℚ)) (ta : Int) (a : ℚ) (tb : Int) (b : ℚ),
        l = pre ++ [(ta, a), (tb, b)] → 0 < a →
        ((ta, a), (tb, b)) ∈ validPairs l) := by
  constructor
  · unfold avgAbsDailyReturn
    rw [returnsOf_eq_map_validPairs]
    by_cases hv : validPairs l = []
    · rw [if_pos hv, hv]
      simp
    · rw [if_neg hv]
      have hne : ((validPairs l).map (fun p => |p.2.2 / p.1.2 - 1|)).isEmpty = false := by
        simp [List.isEmpty_iff, hv]
      rw [if_neg (by simp [hne])]
      rw [List.length_map]
  · intro pre ta a tb b hl ha
    subst hl
    unfold validPairs
    refine List.mem_filter.mpr ⟨?_, by simpa using ha⟩
    exact mem_zip_tail_append pre (ta, a) (tb, b)

/-- Witness for the amended C4 on the two-point series
`[(1, 100), (2, 110)]`: the mean formula holds and the anchor pair is a
member of the valid pairs. -/
theorem avg_abs_daily_return_mean_formula_witness :
    avgAbsDailyReturn [(1, 100), (2, 110)] =
      (if validPairs [(1, 100), (2, 110)] = [] then 0
       else ((validPairs [(1, 100), (2, 110)]).map
              (fun p => |p.2.2 / p.1.2 - 1|)).sum /
              ((validPairs [(1, 100), (2, 110)]).length : ℚ)) ∧
    ((1, 100), (2, 110)) ∈ validPairs [(1, 100), (2, 110)] := by
  have h := avg_abs_daily_return_mean_formula [(1, 100), (2, 110)] (by decide)
  exact ⟨h.1, h.2 [] 1 100 2 110 rfl (by norm_num)⟩

/-! ## Claim C8: first-wins deduplication across sources -/

/-- The deduplication-only step: the behaviour of the entry loop of
`fetch_news` on an entry that already passed the publish-time and
non-empty-title checks. -/
def dedupStep (st : List (String × String) × List NewsItem) (e : FeedEntry) :
    List (String × String) × List NewsItem :=
  if entryKey e ∈ st.1 then st
  else (entryKey e :: st.1, st.2 ++ [mkNewsItem e])

/-- The key of the item built from an entry is the entry's key. -/
theorem itemKey_mkNewsItem (e : FeedEntry) : itemKey (mkNewsItem e) = entryKey e := rfl

/-- The ingestion step acts as the deduplication step on surviving
entries and is the identity otherwise. -/
theorem fetchNewsStep_eq (st : List (String × String) × List NewsItem)
    (e : FeedEntry) :
    fetchNewsStep st e = if survives e = true then dedupStep st e else st := by
  cases hpub : entryPublished e with
  | none =>
      have hs : survives e = false := by simp [survives, hpub]
      simp [fetchNewsStep, hpub, hs]
  | some t =>
      simp only [fetchNewsStep, hpub]
      by_cases ht : clean_text e.title = ""
      · have hs : survives e = false := by simp [survives, hpub, ht]
        rw [if_pos (Or.inl ht), hs]
        simp
      · have hs : survives e = true := by simp [survives, hpub, ht]
        rw [hs, if_pos rfl]
        by_cases hk : dedupeKey (clean_text e.title) e.link ∈ st.1
        · rw [if_pos (Or.inr hk)]
          unfold dedupStep entryKey
          rw [if_pos hk]
        · rw [if_neg (by tauto)]
          unfold dedupStep entryKey
          rw [if_neg hk]

/-- The entry fold of `fetch_news` equals the deduplication fold over
the surviving entries. -/
theorem foldl_fetchNewsStep_eq (entries : List FeedEntry) :
    ∀ st, List.foldl fetchNewsStep st entries =
      List.foldl dedupStep st (entries.filter survives) := by
  induction entries with
  | nil =>
      intro st
      rfl
  | cons e rest ih =>
      intro st
      rw [List.foldl_cons, fetchNewsStep_eq]
      by_cases hs : survives e = true
      · rw [if_pos hs, List.filter_cons_of_pos hs, List.foldl_cons]
        exact ih (dedupStep st e)
      · rw [if_neg hs, List.filter_cons_of_neg (by simpa using hs)]
        exact ih st

/-- A list's first match of a predicate is the head of its filtered
sublist. -/
theorem find?_eq_head_filter {α : Type} (p : α → Bool) :
    ∀ l : List α, l.find? p = (l.filter p).head? := by
  intro l
  induction l with
  | nil => rfl
  | cons a l ih =>
      by_cases hpa : p a = true
      · rw [List.find?_cons_of_pos _ hpa, List.filter_cons_of_pos hpa]
        rfl
      · rw [List.find?_cons_of_neg _ (by simpa using hpa),
          List.filter_cons_of_neg (by simpa using hpa)]
        exact ih

/-- The deduplication fold keeps, per key, exactly the already-kept
items plus (when the key is unseen) the item of the first entry bearing
that key. -/
theorem dedupFold_filter_key (k : String × String) :
    ∀ (l : List FeedEntry) (seen : List (String × String)) (items : List NewsItem),
      ((List.foldl dedupStep (seen, items) l).2).filter
          (fun it => decide (itemKey it = k)) =
        items.filter (fun it => decide (itemKey it = k)) ++
          (if k ∈ seen then []
           else
             match l.find? (fun e => decide (entryKey e = k)) with
             | some e => [mkNewsItem e]
             | none => []) := by
  intro l
  induction l with
  | nil =>
      intro seen items
      by_cases hk : k ∈ seen <;> simp [hk]
  | cons e l ih =>
      intro seen items
      rw [List.foldl_cons]
      by_cases hmem : entryKey e ∈ seen
      · rw [show dedupStep (seen, items) e = (seen, items) by
          unfold dedupStep; rw [if_pos hmem]]
        rw [ih seen items]
        by_cases hk : k ∈ seen
        · rw [if_pos hk, if_pos hk]
        · have hne : ¬(entryKey e = k) := fun he => hk (he ▸ hmem)
          have hfd : List.find? (fun x => decide (entryKey x = k)) (e :: l) =
              List.find? (fun x => decide (entryKey x = k)) l := by
            simp [hne]
          rw [if_neg hk, if_neg hk, hfd]
      · rw [show dedupStep (seen, items) e =
            (entryKey e :: seen, items ++ [mkNewsItem e]) by
          unfold dedupStep; rw [if_neg hmem]]
        rw [ih (entryKey e :: seen) (items ++ [mkNewsItem e]), List.filter_append]
        by_cases hek : entryKey e = k
        · have hknotseen : k ∉ seen := fun hks => hmem (hek ▸ hks)
          have hkseen' : k ∈ entryKey e :: seen := by
            rw [← hek]
            exact List.mem_cons_self _ _
          have hfd : List.find? (fun x => decide (entryKey x = k)) (e :: l) =
              some e := by
            simp [hek]
          rw [if_pos hkseen', if_neg hknotseen, hfd]
          have hone : List.filter (fun it => decide (itemKey it = k)) [mkNewsItem e] =
              [mkNewsItem e] := by
            simp [itemKey_mkNewsItem, hek]
          rw [hone, List.append_nil]
        · have hnone : List.filter (fun it => decide (itemKey it = k)) [mkNewsItem e] =
              [] := by
            simp [itemKey_mkNewsItem, hek]
          rw [hnone, List.append_nil]
          by_cases hk : k ∈ seen
          · rw [if_pos (List.mem_cons_of_mem _ hk), if_pos hk]
          · have hk' : k ∉ entryKey e :: seen := by
              intro hc
              rcases List.mem_cons.mp hc with hc1 | hc2
              · exact hek hc1.symm
              · exact hk hc2
            have hfd : List.find? (fun x => decide (entryKey x = k)) (e :: l) =
                List.find? (fun x => decide (entryKey x = k)) l := by
              simp [hek]
            rw [if_neg hk', if_neg hk, hfd]

/-- C8: if two or more surviving entries (parseable publish time,
non-empty cleaned title) share the deduplication key `k`, ingestion
yields exactly one news item for that key, namely the one built from
the first such entry in source/entry order; later duplicates are
silently dropped. -/
theorem fetch_news_dedupe_first_wins (entries : List FeedEntry)
    (k : String × String) (e₀ e₁ : FeedEntry) (rest : List FeedEntry)
    (h : entries.filter (fun e => survives e && decide (entryKey e = k)) =
      e₀ :: e₁ :: rest) :
    ((fetch_news entries).filter (fun it => decide (itemKey it = k))).length = 1 ∧
    mkNewsItem e₀ ∈ fetch_news entries := by
  have hff : (entries.filter survives).filter (fun e => decide (entryKey e = k)) =
      e₀ :: e₁ :: rest := by
    rw [List.filter_filter]
    rw [show (fun a => decide (entryKey a = k) && survives a) =
        (fun e => survives e && decide (entryKey e = k)) from
      funext (fun a => Bool.and_comm _ _)]
    exact h
  have hfind : (entries.filter survives).find? (fun e => decide (entryKey e = k)) =
      some e₀ := by
    rw [find?_eq_head_filter, hff]
    rfl
  have hcore := dedupFold_filter_key k (entries.filter survives) [] []
  rw [hfind] at hcore
  simp only [List.filter_nil, List.not_mem_nil, if_false, List.nil_append] at hcore
  have hfn : fetch_news entries =
      List.insertionSort (fun a b => b.published ≤ a.published)
        (List.foldl dedupStep ([], []) (entries.filter survives)).2 := by
    simp only [fetch_news]
    rw [foldl_fetchNewsStep_eq]
  have hperm : (fetch_news entries).Perm
      (List.foldl dedupStep ([], []) (entries.filter survives)).2 := by
    rw [hfn]
    exact List.perm_insertionSort _ _
  constructor
  · have hpf := hperm.filter (fun it => decide (itemKey it = k))
    rw [hcore] at hpf
    rw [hpf.length_eq]
    rfl
  · have hmemf : mkNewsItem e₀ ∈
        ((List.foldl dedupStep ([], []) (entries.filter survives)).2).filter
          (fun it => decide (itemKey it = k)) := by
      rw [hcore]
      exact List.mem_cons_self _ _
    exact hperm.mem_iff.mpr (List.mem_of_mem_filter hmemf)

/-- Sample entries for the C8 witness: same key
`("bitcoin report", "http://a")` after cleaning and lowercasing. -/
def sampleEntryA : FeedEntry :=
  FeedEntry.mk (some 100) none "Bitcoin  Report" "http://a" ""

/-- Second sample entry, a later duplicate of the first (published via
the `updated` field, different summary). -/
def sampleEntryB : FeedEntry :=
  FeedEntry.mk none (some 50) "BITCOIN REPORT" "http://a" "x"

/-- Witness for C8: of the two duplicate entries, ingestion keeps
exactly one item for the shared key, the one built from the first. -/
theorem fetch_news_dedupe_first_wins_witness :
    ((fetch_news [sampleEntryA, sampleEntryB]).filter
        (fun it => decide (itemKey it = ("bitcoin report", "http://a")))).length = 1 ∧
    mkNewsItem sampleEntryA ∈ fetch_news [sampleEntryA, sampleEntryB] :=
  fetch_news_dedupe_first_wins [sampleEntryA, sampleEntryB]
    ("bitcoin report", "http://a") sampleEntryA sampleEntryB [] (by decide)
